import Mathlib

/-!
Shallow embedding of the TGF channel relationship analysis engine
(`analysis_engine.py`) and proofs of the specification claims about it.

Python floats are modelled as rationals (`ℚ`); all arithmetic appearing in
the analysis engine (weighted sums, Jaccard quotients, divisions by counts,
threshold comparisons) is exact, so no rounding behaviour is lost.
Python dictionaries with a fixed key set are modelled as structures; a key
that is only sometimes present is modelled as an `Option` field.
External library collaborators (sentence-transformers, the networkx
centrality routines, the sklearn LDA pipeline) are modelled as explicit
function parameters; sklearn behaviour that is forced for every input
(the `TfidfVectorizer(min_df=2, max_df=0.95)` fit on a two-document corpus)
is modelled directly, with the justification in the corresponding
doc comment.
-/

namespace TGF

/-! ## Text normalisation (`ContentAnalyzer._clean_text`)

`_clean_text` applies five `re.sub` passes and then `lower().strip()`.
Each regular expression is translated into a direct character-level scanner
with Python's leftmost, greedy matching semantics.  The character classes
`\w` and `\s` are modelled at ASCII level (the inputs our theorems evaluate
are ASCII; no universal theorem depends on the classes' extent).
The scanners use a structural fuel argument (initialised to the input
length, which every step strictly consumes) so that they reduce inside
`decide`/`rfl`. -/

/-- The `\w` character class (ASCII part): letters, digits, underscore. -/
def isWordChar (c : Char) : Bool :=
  c.isAlphanum || c = '_'

/-- The `\s` character class (ASCII part). -/
def isSpaceChar (c : Char) : Bool :=
  c = ' ' || c = '\t' || c = '\n' || c = '\r' || c = '\x0b' || c = '\x0c'

/-- Characters matched by the body alternation of the URL regex
`http[s]?://(?:[a-zA-Z]|[0-9]|[$-_@.&+]|[!*\\(\\),]|(?:%[0-9a-fA-F][0-9a-fA-F]))+`.
Note `[$-_@.&+]` is the character RANGE 0x24..0x5F plus `@.&+` (all already
inside the range), and a single `%` is inside the range as well, so the
`%xx` escape alternative adds nothing new. -/
def isUrlChar (c : Char) : Bool :=
  c.isAlpha || c.isDigit || (0x24 ≤ c.toNat && c.toNat ≤ 0x5F) ||
  c = '!' || c = '*' || c = '\\' || c = '(' || c = ')' || c = ','

/-- Drop a maximal run of URL-body characters (greedy `+`). -/
def dropUrlBody : List Char → List Char
  | [] => []
  | c :: cs => if isUrlChar c then dropUrlBody cs else c :: cs

/-- Match the scheme part `http[s]?://` at the head of the list, returning
the remainder.  The first pattern models the greedy `s?` branch, the second
the backtracked branch. -/
def stripScheme : List Char → Option (List Char)
  | 'h' :: 't' :: 't' :: 'p' :: 's' :: ':' :: '/' :: '/' :: r => some r
  | 'h' :: 't' :: 't' :: 'p' :: ':' :: '/' :: '/' :: r => some r
  | _ => none

/-- Try to match the whole URL regex at the head of the list (scheme, then
at least one body character, greedily extended); return the remainder. -/
def matchUrl (cs : List Char) : Option (List Char) :=
  match stripScheme cs with
  | some (c :: r) => if isUrlChar c then some (dropUrlBody r) else none
  | _ => none

/-- `re.sub(urlRegex, '', text)`: leftmost-match scan deleting URL matches.
A successful match always consumes at least eight characters and a failed
position consumes one, so fuel `cs.length` suffices (the fuel-0 case is
reached only with an empty list). -/
def removeUrlsFuel : Nat → List Char → List Char
  | 0, _ => []
  | fuel + 1, cs =>
    match matchUrl cs with
    | some rest => removeUrlsFuel fuel rest
    | none =>
      match cs with
      | [] => []
      | c :: cs2 => c :: removeUrlsFuel fuel cs2

def removeUrls (cs : List Char) : List Char :=
  removeUrlsFuel cs.length cs

/-- Is the head of the list a `\w` character? (used for the `\w+` part of
`@\w+` / `#\w+`). -/
def headIsWord : List Char → Bool
  | c :: _ => isWordChar c
  | [] => false

/-- Drop a maximal run of `\w` characters. -/
def dropWordRun : List Char → List Char
  | [] => []
  | c :: cs => if isWordChar c then dropWordRun cs else c :: cs

/-- `re.sub(tag ++ "\\w+", '', text)` for `tag` = `@` or `#`: leftmost scan
deleting the tag character together with the following word run.  Each step
consumes at least one character, so fuel `cs.length` suffices. -/
def removeTaggedFuel (tag : Char) : Nat → List Char → List Char
  | 0, _ => []
  | fuel + 1, cs =>
    match cs with
    | [] => []
    | c :: rest =>
      if c = tag && headIsWord rest then removeTaggedFuel tag fuel (dropWordRun rest)
      else c :: removeTaggedFuel tag fuel rest

def removeTagged (tag : Char) (cs : List Char) : List Char :=
  removeTaggedFuel tag cs.length cs

/-- `re.sub(r'\s+', ' ', text)`: collapse every whitespace run to a single
space. -/
def collapseWsFuel : Nat → List Char → List Char
  | 0, _ => []
  | fuel + 1, cs =>
    match cs with
    | [] => []
    | c :: rest =>
      if isSpaceChar c then ' ' :: collapseWsFuel fuel (rest.dropWhile isSpaceChar)
      else c :: collapseWsFuel fuel rest

def collapseWs (cs : List Char) : List Char :=
  collapseWsFuel cs.length cs

/-- `re.sub(r'[^\w\s]', ' ', text)`: replace every character that is neither
a word character nor whitespace by a space. -/
def replacePunct (cs : List Char) : List Char :=
  cs.map fun c => if isWordChar c || isSpaceChar c then c else ' '

/-- Python `str.strip()`: drop leading and trailing whitespace. -/
def stripEnds (cs : List Char) : List Char :=
  ((cs.dropWhile isSpaceChar).reverse.dropWhile isSpaceChar).reverse

/-- `ContentAnalyzer._clean_text`: URL removal, mention removal, hashtag
removal, whitespace collapsing, punctuation replacement, then
`lower().strip()`. -/
def clean_text (s : String) : String :=
  let cs1 := removeUrls s.toList
  let cs2 := removeTagged '@' cs1
  let cs3 := removeTagged '#' cs2
  let cs4 := collapseWs cs3
  let cs5 := replacePunct cs4
  String.mk (stripEnds (cs5.map Char.toLower))

/-- Python `str.split()` (no separator): whitespace-delimited words, with no
empty words.  Each step consumes at least one character. -/
def pySplitFuel : Nat → List Char → List (List Char)
  | 0, _ => []
  | fuel + 1, cs =>
    match cs.dropWhile isSpaceChar with
    | [] => []
    | c :: rest =>
      (c :: rest.takeWhile (fun d => !isSpaceChar d)) ::
        pySplitFuel fuel (rest.dropWhile (fun d => !isSpaceChar d))

def pySplit (s : String) : List String :=
  (pySplitFuel (s.toList.length + 1) s.toList).map String.mk

/-- The `AnalysisConfig` dataclass with its default values. -/
structure AnalysisConfig where
  content_similarity_threshold : ℚ := 7/10
  time_correlation_threshold : ℚ := 6/10
  duplicate_threshold : ℚ := 85/100
  network_analysis_depth : Nat := 3
  min_posts_for_analysis : Nat := 10
  time_window_hours : Nat := 24
  semantic_model : String := "all-MiniLM-L6-v2"
  clustering_eps : ℚ := 3/10
  clustering_min_samples : Nat := 3
deriving Repr, DecidableEq

/-! ## Similarity scores (`ContentAnalyzer`) -/

/-- The dictionary returned by `calculate_text_similarity`. -/
structure SimilarityScore where
  tfidf : ℚ
  semantic : ℚ
  lexical : ℚ
  overall : ℚ
deriving Repr, DecidableEq

/-- `ContentAnalyzer._calculate_tfidf_similarity` calls
`self.tfidf_vectorizer.fit_transform([text1, text2])` where the vectorizer
was constructed with `min_df=2, max_df=0.95`.  sklearn's
`CountVectorizer.fit_transform` computes `max_doc_count = max_df * n_doc`
(a float, since `max_df` is a float) and raises
`ValueError("max_df corresponds to < documents than min_df")` whenever
`max_doc_count < min_doc_count`; here `0.95 * 2 = 1.9 < 2` for every pair
of documents, so the fit raises unconditionally (and even without that
check, pruning to terms with `2 ≤ df ≤ 1.9·…` would leave an empty
vocabulary, which also raises).  We model the call as the raised error. -/
def tfidf_pair_fit (_text1 _text2 : String) : Except String ℚ :=
  .error "max_df corresponds to < documents than min_df"

/-- `ContentAnalyzer._calculate_tfidf_similarity`: the `try` body always
raises (see `tfidf_pair_fit`), and the handler returns `0.0`. -/
def calculate_tfidf_similarity (text1 text2 : String) : ℚ :=
  match tfidf_pair_fit text1 text2 with
  | .ok s => s
  | .error _ => 0

/-- The optional sentence-embedding collaborator.  `none` models
`self.semantic_model is None` (sentence-transformers not installed, or the
model failed to load); `some f` abstracts `encode` followed by cosine
similarity of the two embeddings. -/
def SemanticModel : Type := Option (String → String → ℚ)

/-- `ContentAnalyzer._calculate_semantic_similarity`: `0.0` without a
model, otherwise the embedding cosine similarity. -/
def calculate_semantic_similarity (model : SemanticModel) (text1 text2 : String) : ℚ :=
  match model with
  | none => 0
  | some f => f text1 text2

/-- `ContentAnalyzer._calculate_lexical_similarity`: Jaccard similarity of
the whitespace-split word sets, `0.0` if either set is empty. -/
def calculate_lexical_similarity (text1 text2 : String) : ℚ :=
  let words1 := (pySplit text1).toFinset
  let words2 := (pySplit text2).toFinset
  if words1 = ∅ ∨ words2 = ∅ then 0
  else
    let intersection := (words1 ∩ words2).card
    let union := (words1 ∪ words2).card
    if union > 0 then (intersection : ℚ) / (union : ℚ) else 0

/-- `ContentAnalyzer.calculate_text_similarity`: all-zero score when either
raw input is empty (Python falsiness of `str`), otherwise the three
sub-scores on the cleaned texts and their weighted combination. -/
def calculate_text_similarity (model : SemanticModel) (text1 text2 : String) :
    SimilarityScore :=
  if text1 = "" ∨ text2 = "" then ⟨0, 0, 0, 0⟩
  else
    let text1_clean := clean_text text1
    let text2_clean := clean_text text2
    let tfidf_sim := calculate_tfidf_similarity text1_clean text2_clean
    let semantic_sim := calculate_semantic_similarity model text1_clean text2_clean
    let lexical_sim := calculate_lexical_similarity text1_clean text2_clean
    ⟨tfidf_sim, semantic_sim, lexical_sim,
      2/5 * tfidf_sim + 2/5 * semantic_sim + 1/5 * lexical_sim⟩

/-! ## Posts and duplicate detection (`ContentAnalyzer`) -/

/-- A post dictionary, restricted to the keys the analysis engine reads.
`Option` models an absent key (a key present with value `None` behaves the
same everywhere the engine reads it, so the two are conflated).
`published_at` is the timestamp in seconds (Python `datetime`, already
parsed; the engine converts ISO strings before subtracting). -/
structure Post where
  id : Option Int := none
  telegram_id : Option Int := none
  text : String := ""
  published_at : Option ℚ := none
deriving Repr, DecidableEq

/-- `post.get('id', post.get('telegram_id'))`. -/
def postId (p : Post) : Option Int :=
  match p.id with
  | some v => some v
  | none => p.telegram_id

/-- `ContentAnalyzer._calculate_time_diff`: absolute difference in minutes,
`0.0` if either timestamp is missing (falsy). -/
def content_time_diff (date1 date2 : Option ℚ) : ℚ :=
  match date1, date2 with
  | some d1, some d2 => |d1 - d2| / 60
  | _, _ => 0

/-- `ContentAnalyzer._classify_duplicate_type`. -/
def classify_duplicate_type (s : SimilarityScore) : String :=
  if s.overall > 95/100 then "exact"
  else if s.semantic > 8/10 then "semantic"
  else if s.tfidf > 8/10 then "textual"
  else "partial"

/-- One entry of the list returned by `detect_duplicates`. -/
structure DupRecord where
  post1_id : Option Int
  post2_id : Option Int
  similarity_metrics : SimilarityScore
  time_diff_minutes : ℚ
  duplicate_type : String
deriving Repr, DecidableEq

/-- All ordered pairs `(posts[i], posts[j])` with `i < j`, in the order the
nested loops `for i, post1 in enumerate(posts); for j, post2 in
enumerate(posts[i+1:], i+1)` produce them. -/
def pairsAfter : List Post → List (Post × Post)
  | [] => []
  | p :: rest => rest.map (fun q => (p, q)) ++ pairsAfter rest

/-- The record `detect_duplicates` appends for a qualifying pair. -/
def dupRecord (model : SemanticModel) (post1 post2 : Post) : DupRecord :=
  let similarity := calculate_text_similarity model post1.text post2.text
  { post1_id := postId post1
    post2_id := postId post2
    similarity_metrics := similarity
    time_diff_minutes := content_time_diff post1.published_at post2.published_at
    duplicate_type := classify_duplicate_type similarity }

/-- `ContentAnalyzer.detect_duplicates`: for every `i < j` pair, keep it
exactly when `similarity['overall'] > self.config.duplicate_threshold`. -/
def detect_duplicates (model : SemanticModel) (duplicate_threshold : ℚ)
    (posts : List Post) : List DupRecord :=
  (pairsAfter posts).filterMap fun pq =>
    let similarity := calculate_text_similarity model pq.1.text pq.2.text
    if similarity.overall > duplicate_threshold then some (dupRecord model pq.1 pq.2)
    else none

/-! ## Topic extraction (`ContentAnalyzer.extract_topics`) -/

/-- One topic of the LDA result. -/
structure Topic where
  id : Nat
  keywords : List String
  weight : ℚ
deriving Repr, DecidableEq

/-- The dictionary returned by `extract_topics`. -/
structure TopicsResult where
  topics : List Topic
  topic_distribution : List (List ℚ)
deriving Repr, DecidableEq

/-- The sklearn vectorize-and-LDA pipeline (`tfidf_vectorizer.fit_transform`,
`LatentDirichletAllocation` fit/transform and keyword extraction), abstracted
as a collaborator: it receives the cleaned non-empty texts and the topic
count and either produces the topics result or raises. -/
def LdaPipeline : Type := List String → Nat → Except String TopicsResult

/-- `ContentAnalyzer.extract_topics`: filter falsy texts, clean the rest,
return the empty result when fewer than `n_topics` cleaned texts remain,
otherwise run the pipeline, with the exception handler returning the empty
result. -/
def extract_topics (pipeline : LdaPipeline) (texts : List String) (n_topics : Nat) :
    TopicsResult :=
  let clean_texts := (texts.filter (fun t => t ≠ "")).map clean_text
  if clean_texts.length < n_topics then ⟨[], []⟩
  else
    match pipeline clean_texts n_topics with
    | .ok r => r
    | .error _ => ⟨[], []⟩

/-! ## Temporal analysis (`TemporalAnalyzer`) -/

/-- `TemporalAnalyzer._calculate_time_diff_signed`: `(date1 - date2)` in
minutes, `0.0` if either timestamp is missing (falsy). -/
def time_diff_signed (date1 date2 : Option ℚ) : ℚ :=
  match date1, date2 with
  | some d1, some d2 => (d1 - d2) / 60
  | _, _ => 0

/-- `TemporalAnalyzer._calculate_time_diff`: absolute value of the signed
difference. -/
def temporal_time_diff (date1 date2 : Option ℚ) : ℚ :=
  |time_diff_signed date1 date2|

/-- One entry of the list returned by `_find_synchronized_posts`. -/
structure SyncRecord where
  post1_id : Option Int
  post2_id : Option Int
  time_diff_minutes : ℚ
  post1_date : Option ℚ
  post2_date : Option ℚ
deriving Repr, DecidableEq

/-- The record `_find_synchronized_posts` appends for a qualifying pair. -/
def syncRecord (post1 post2 : Post) : SyncRecord :=
  { post1_id := postId post1
    post2_id := postId post2
    time_diff_minutes := temporal_time_diff post1.published_at post2.published_at
    post1_date := post1.published_at
    post2_date := post2.published_at }

/-- `TemporalAnalyzer._find_synchronized_posts`: all cross pairs whose
absolute time difference is at most 30 minutes, sorted ascending by that
difference (`sorted` with a key is a stable sort, as is `mergeSort`). -/
def find_synchronized_posts (posts1 posts2 : List Post) : List SyncRecord :=
  let sync_posts := posts1.flatMap fun post1 =>
    posts2.filterMap fun post2 =>
      let time_diff := temporal_time_diff post1.published_at post2.published_at
      if time_diff ≤ 30 then some (syncRecord post1 post2) else none
  sync_posts.mergeSort fun a b => a.time_diff_minutes ≤ b.time_diff_minutes

/-- One entry of `lead_lag_analysis` in `_analyze_posting_sequence`. -/
structure LeadLagEntry where
  time_diff : ℚ
  channel1_leads : Bool
deriving Repr, DecidableEq

/-- The inner loop of `_analyze_posting_sequence` for one `post1`: scan
`posts2` keeping the post with the smallest absolute signed difference,
considering only differences within 120 minutes.  The state holds the
current `closest_post2` together with `lead_lag_time` (whose absolute value
is the running `min_time_diff`; `min_time_diff` starts at infinity,
modelled by the `none` state). -/
def scanStep (post1 : Post) (acc : Option (Post × ℚ)) (post2 : Post) :
    Option (Post × ℚ) :=
  let time_diff := time_diff_signed post1.published_at post2.published_at
  let accept : Bool :=
    match acc with
    | none => decide (|time_diff| ≤ 120)
    | some pr => decide (|time_diff| < |pr.2|) && decide (|time_diff| ≤ 120)
  if accept then some (post2, time_diff) else acc

def scanClosest (post1 : Post) (posts2 : List Post) : Option (Post × ℚ) :=
  posts2.foldl (scanStep post1) none

/-- The dictionary returned by `_analyze_posting_sequence`.  When no pair
qualifies the function returns `{'total_pairs': 0}` only; the keys that are
then absent are `Option` fields. -/
structure SequenceAnalysis where
  total_pairs : Nat
  channel1_leads_count : Option Nat
  channel2_leads_count : Option Nat
  average_lead_time_minutes : Option ℚ
  dominant_leader : Option String
deriving Repr, DecidableEq

/-- Arithmetic mean (`np.mean`) of a list of rationals. -/
def listMean (l : List ℚ) : ℚ :=
  l.sum / (l.length : ℚ)

/-- `TemporalAnalyzer._analyze_posting_sequence`. -/
def analyze_posting_sequence (posts1 posts2 : List Post) : SequenceAnalysis :=
  let lead_lag_analysis := posts1.filterMap fun post1 =>
    (scanClosest post1 posts2).map fun pr =>
      let lead_lag_time : ℚ := pr.2
      ({ time_diff := lead_lag_time, channel1_leads := decide (lead_lag_time < 0) } :
        LeadLagEntry)
  if lead_lag_analysis.isEmpty then ⟨0, none, none, none, none⟩
  else
    let channel1_leads_count := (lead_lag_analysis.filter (·.channel1_leads)).length
    { total_pairs := lead_lag_analysis.length
      channel1_leads_count := some channel1_leads_count
      channel2_leads_count := some (lead_lag_analysis.length - channel1_leads_count)
      average_lead_time_minutes :=
        some (listMean (lead_lag_analysis.map fun e => |e.time_diff|))
      dominant_leader := some
        (if (channel1_leads_count : ℚ) > (lead_lag_analysis.length : ℚ) / 2
         then "channel1" else "channel2") }

/-! ## Graphs (`networkx.Graph` as used by `NetworkAnalyzer`)

Channel identifiers in the connection dictionaries are Python values that
the code only tests for truthiness and equality; the ones that occur are
integers and strings, so a node is `Int ⊕ String` (falsy: `0` and `""`).
An undirected graph is its node list (in insertion order, without
duplicates for graphs produced by `add_edge`) and its edge list, holding at
most one edge per unordered endpoint pair. -/

/-- A node identifier: an integer or a string channel id. -/
abbrev NodeId : Type := Int ⊕ String

instance : DecidableEq NodeId :=
  inferInstanceAs (DecidableEq (Int ⊕ String))

instance : BEq NodeId := ⟨fun a b => decide (a = b)⟩

instance : LawfulBEq NodeId :=
  ⟨fun h => of_decide_eq_true h, fun {a} => by simp [BEq.beq]⟩

/-- Python truthiness of a node identifier. -/
def nodeTruthy : NodeId → Bool
  | .inl n => n ≠ 0
  | .inr s => s ≠ ""

/-- The attributes `add_edge` stores on an edge (the `**conn` extras are
never read back except through these two keys). -/
structure EdgeData where
  weight : ℚ
  connection_type : String
deriving Repr, DecidableEq

/-- An edge with its two endpoints. -/
structure Edge where
  u : NodeId
  v : NodeId
  data : EdgeData
deriving Repr, DecidableEq

/-- Does edge `e` join `a` and `b` (in either orientation)? -/
def Edge.joins (e : Edge) (a b : NodeId) : Bool :=
  (e.u = a && e.v = b) || (e.u = b && e.v = a)

structure Graph where
  nodes : List NodeId
  edges : List Edge
deriving Repr, DecidableEq

/-- The empty graph `nx.Graph()`. -/
def Graph.empty : Graph := ⟨[], []⟩

/-- `G.add_edge(u, v, ...)`: add the endpoints as nodes if absent (each
appended in first-appearance order) and set the edge's attributes,
overwriting an existing `u–v` edge. -/
def Graph.add_edge (g : Graph) (a b : NodeId) (d : EdgeData) : Graph :=
  let ns1 := if a ∈ g.nodes then g.nodes else g.nodes ++ [a]
  let ns2 := if b ∈ ns1 then ns1 else ns1 ++ [b]
  let es :=
    if g.edges.any (·.joins a b) then
      g.edges.map fun e => if e.joins a b then ⟨e.u, e.v, d⟩ else e
    else g.edges ++ [⟨a, b, d⟩]
  ⟨ns2, es⟩

/-- `graph.neighbors(n)`: the adjacent nodes (a self-loop contributes `n`
itself once). -/
def Graph.neighbors (g : Graph) (n : NodeId) : List NodeId :=
  g.edges.filterMap fun e =>
    if e.u = n then some e.v else if e.v = n then some e.u else none

/-- `graph.degree(n)`: incident edge ends (a self-loop counts twice). -/
def Graph.degree (g : Graph) (n : NodeId) : Nat :=
  g.edges.foldl
    (fun acc e => acc + (if e.u = n then 1 else 0) + (if e.v = n then 1 else 0)) 0

/-- `graph.degree(n, weight='weight')`: sum of incident edge weights (a
self-loop counts twice). -/
def Graph.weighted_degree (g : Graph) (n : NodeId) : ℚ :=
  g.edges.foldl
    (fun acc e =>
      acc + (if e.u = n then e.data.weight else 0) + (if e.v = n then e.data.weight else 0)) 0

/-- `graph[a][b].get('weight', 0.0)`: the stored weight of the first `a–b`
edge, `0.0` if there is none. -/
def Graph.edge_weight (g : Graph) (a b : NodeId) : ℚ :=
  match g.edges.find? (·.joins a b) with
  | some e => e.data.weight
  | none => 0

/-- Well-formedness invariant every graph built through `add_edge`
satisfies (as every `networkx` graph does): edge endpoints are nodes and
the node list has no duplicates. -/
def Graph.Wf (g : Graph) : Prop :=
  (∀ e ∈ g.edges, e.u ∈ g.nodes ∧ e.v ∈ g.nodes) ∧ g.nodes.Nodup

instance : DecidablePred Graph.Wf := fun g => by
  unfold Graph.Wf; infer_instance

/-! ## `NetworkAnalyzer.build_channel_network` -/

/-- A connection dictionary, restricted to the keys `build_channel_network`
reads.  `strength` and `connection_type` are read with `.get` defaults, so
the defaults are applied in the field types already. -/
structure Connection where
  source_id : Option NodeId := none
  target_id : Option NodeId := none
  strength : ℚ := 0
  connection_type : String := "unknown"
deriving Repr, DecidableEq

/-- One iteration of the `for conn in connections` loop of
`build_channel_network`: `if source_id and target_id:` guards the
`add_edge` call. -/
def addConnection (g : Graph) (conn : Connection) : Graph :=
  match conn.source_id, conn.target_id with
  | some a, some b =>
    if nodeTruthy a && nodeTruthy b then
      g.add_edge a b ⟨conn.strength, conn.connection_type⟩
    else g
  | _, _ => g

/-- Does the `if source_id and target_id:` guard accept this connection? -/
def connectionAccepted (conn : Connection) : Bool :=
  match conn.source_id, conn.target_id with
  | some a, some b => nodeTruthy a && nodeTruthy b
  | _, _ => false

/-- `NetworkAnalyzer.build_channel_network`: add an edge per connection,
but only when both `source_id` and `target_id` are truthy. -/
def build_channel_network (connections : List Connection) : Graph :=
  connections.foldl addConnection Graph.empty

/-! ## Network metrics (`NetworkAnalyzer.calculate_network_metrics`) -/

/-- The abstract `networkx` centrality collaborators.  Only their call
pattern and exception behaviour matter here: `betweenness_centrality` and
`closeness_centrality` return totally, `eigenvector_centrality` may raise
(its call sits in an inner `try` whose handler yields `0.0`), and
`pagerank` may raise `PowerIterationFailedConvergence` (its exception
reaches the handler of `_calculate_centrality_metrics`, which overwrites
every centrality with `0.0`).  Each returns the per-node mapping that the
code immediately reads with `.get(channel_id, 0.0)`. -/
structure NxCentrality where
  betweenness : Graph → NodeId → ℚ
  closeness : Graph → NodeId → ℚ
  eigenvector : Graph → Except String (NodeId → ℚ)
  pagerank : Graph → Except String (NodeId → ℚ)
  clustering : Graph → NodeId → ℚ
  is_connected : Graph → Bool

/-- `nx.degree_centrality(G)[n]`, per its definition: `degree(n) / (|V|-1)`
(only called when `|V| > 1`). -/
def degree_centrality (g : Graph) (n : NodeId) : ℚ :=
  (g.degree n : ℚ) / ((g.nodes.length : ℚ) - 1)

/-- The five values `_calculate_centrality_metrics` computes.  -/
structure CentralityVals where
  degree_centrality : ℚ
  betweenness_centrality : ℚ
  closeness_centrality : ℚ
  eigenvector_centrality : ℚ
  pagerank : ℚ
deriving Repr, DecidableEq

/-- `NetworkAnalyzer._calculate_centrality_metrics`: degree, betweenness,
guarded closeness and guarded eigenvector centralities plus PageRank; if
the PageRank power iteration raises, the surrounding `except` overwrites
all five with `0.0`. -/
def calculate_centrality_metrics (nx : NxCentrality) (g : Graph) (channel_id : NodeId) :
    CentralityVals :=
  match nx.pagerank g with
  | .error _ => ⟨0, 0, 0, 0, 0⟩
  | .ok pr =>
    { degree_centrality := degree_centrality g channel_id
      betweenness_centrality := nx.betweenness g channel_id
      closeness_centrality :=
        if nx.is_connected g then nx.closeness g channel_id else 0
      eigenvector_centrality :=
        match nx.eigenvector g with
        | .ok ev => ev channel_id
        | .error _ => 0
      pagerank := pr channel_id }

/-- The metrics dictionary.  The five centrality keys are only inserted
when the graph has more than one node, hence the `Option` fields. -/
structure NetworkMetrics where
  degree : Nat
  weighted_degree : ℚ
  degree_centrality : Option ℚ
  betweenness_centrality : Option ℚ
  closeness_centrality : Option ℚ
  eigenvector_centrality : Option ℚ
  pagerank : Option ℚ
  clustering_coefficient : ℚ
  neighbors_count : Nat
  neighbors : List NodeId
  connection_types : List (String × Nat)
  strong_connections : Nat
  total_connections : Nat
deriving Repr, DecidableEq

/-- `NetworkAnalyzer._empty_metrics`. -/
def empty_metrics : NetworkMetrics :=
  { degree := 0
    weighted_degree := 0
    degree_centrality := some 0
    betweenness_centrality := some 0
    closeness_centrality := some 0
    eigenvector_centrality := some 0
    pagerank := some 0
    clustering_coefficient := 0
    neighbors_count := 0
    neighbors := []
    connection_types := []
    strong_connections := 0
    total_connections := 0 }

/-- Bump the count of `key` in an association-list histogram
(`edge_types[t] = edge_types.get(t, 0) + 1`). -/
def bumpCount (key : String) : List (String × Nat) → List (String × Nat)
  | [] => [(key, 1)]
  | (k, n) :: rest =>
    if k = key then (k, n + 1) :: rest else (k, n) :: bumpCount key rest

/-- `NetworkAnalyzer._analyze_edge_types`: histogram of incident connection
types, count of incident edges with weight above `0.7`, and the neighbour
count. -/
def analyze_edge_types (g : Graph) (channel_id : NodeId) :
    List (String × Nat) × Nat × Nat :=
  let step := fun (acc : List (String × Nat) × Nat) (neighbor : NodeId) =>
    let connection_type :=
      match g.edges.find? (·.joins channel_id neighbor) with
      | some e => e.data.connection_type
      | none => "unknown"
    let strength := g.edge_weight channel_id neighbor
    (bumpCount connection_type acc.1, if strength > 7/10 then acc.2 + 1 else acc.2)
  let r := (g.neighbors channel_id).foldl step ([], 0)
  (r.1, r.2, (g.neighbors channel_id).length)

/-- `NetworkAnalyzer.calculate_network_metrics`: the all-keys zero
dictionary when the channel is not a node; otherwise degree and weighted
degree, the centrality block only when the graph has more than one node,
the clustering coefficient, the neighbour list, and the edge-type
metrics. -/
def calculate_network_metrics (nx : NxCentrality) (g : Graph) (channel_id : NodeId) :
    NetworkMetrics :=
  if channel_id ∉ g.nodes then empty_metrics
  else
    let cent : Option CentralityVals :=
      if g.nodes.length > 1 then some (calculate_centrality_metrics nx g channel_id)
      else none
    let nbrs := g.neighbors channel_id
    let et := analyze_edge_types g channel_id
    { degree := g.degree channel_id
      weighted_degree := g.weighted_degree channel_id
      degree_centrality := cent.map (·.degree_centrality)
      betweenness_centrality := cent.map (·.betweenness_centrality)
      closeness_centrality := cent.map (·.closeness_centrality)
      eigenvector_centrality := cent.map (·.eigenvector_centrality)
      pagerank := cent.map (·.pagerank)
      clustering_coefficient := nx.clustering g channel_id
      neighbors_count := nbrs.length
      neighbors := nbrs
      connection_types := et.1
      strong_connections := et.2.1
      total_connections := et.2.2 }

/-! ## Community detection (`NetworkAnalyzer._louvain_approximation`)

Python sets (`community`, `visited`) are modelled as `Finset NodeId`; the
BFS queue is a list.  The `while queue` loop is a well-founded recursion:
every iteration either visits at least one new node drawn from the edge
endpoints or shortens the queue. -/

/-- All endpoints of edges of `g` (the pool the BFS can draw new nodes
from). -/
def Graph.edgeNodeSet (g : Graph) : Finset NodeId :=
  (g.edges.map (·.u)).toFinset ∪ (g.edges.map (·.v)).toFinset

theorem mem_edgeNodeSet_of_mem_neighbors {g : Graph} {n x : NodeId}
    (h : x ∈ g.neighbors n) : x ∈ g.edgeNodeSet := by
  simp only [Graph.neighbors, List.mem_filterMap] at h
  obtain ⟨e, he, hx⟩ := h
  simp only [Graph.edgeNodeSet, Finset.mem_union, List.mem_toFinset, List.mem_map]
  split_ifs at hx with h1 h2
  · exact Or.inr ⟨e, he, (Option.some_inj.mp hx)⟩
  · exact Or.inl ⟨e, he, (Option.some_inj.mp hx)⟩

/-- The body of `for neighbor in graph.neighbors(current_node)` inside
`_expand_community`: a not-yet-visited neighbour joined by an edge of
weight above `0.5` is added to the community, the visited set and the
queue.  The state is `(community, visited, queue)`. -/
def expandStep (g : Graph) (current_node : NodeId)
    (st : Finset NodeId × Finset NodeId × List NodeId) (neighbor : NodeId) :
    Finset NodeId × Finset NodeId × List NodeId :=
  if neighbor ∉ st.2.1 ∧ g.edge_weight current_node neighbor > 1/2 then
    (insert neighbor st.1, insert neighbor st.2.1, st.2.2 ++ [neighbor])
  else st

/-- Complete description of the neighbour fold: it extends all three state
components by the same batch `t` of new nodes, each unvisited, drawn from
the neighbour list and joined by a strong edge; and afterwards every
strongly joined neighbour is visited. -/
theorem expandStep_foldl_spec (g : Graph) (cur : NodeId) :
    ∀ (nbrs : List NodeId) (com vis : Finset NodeId) (q : List NodeId),
    ∃ t : List NodeId,
      nbrs.foldl (expandStep g cur) (com, vis, q) =
        (com ∪ t.toFinset, vis ∪ t.toFinset, q ++ t) ∧
      (∀ x ∈ t, x ∉ vis ∧ x ∈ nbrs ∧ g.edge_weight cur x > 1/2) ∧
      (∀ y ∈ nbrs, g.edge_weight cur y > 1/2 → y ∈ vis ∪ t.toFinset) := by
  intro nbrs
  induction nbrs with
  | nil =>
    intro com vis q
    refine ⟨[], by simp, by simp, by simp⟩
  | cons n rest ih =>
    intro com vis q
    by_cases h : n ∉ vis ∧ g.edge_weight cur n > 1/2
    · obtain ⟨t, ht, hmem, hcomp⟩ := ih (insert n com) (insert n vis) (q ++ [n])
      refine ⟨n :: t, ?_, ?_, ?_⟩
      · simp only [List.foldl_cons, expandStep, if_pos h, ht, List.toFinset_cons]
        refine Prod.ext ?_ (Prod.ext ?_ ?_) <;> simp [Finset.insert_union, Finset.union_insert]
      · intro x hx
        rcases List.mem_cons.mp hx with rfl | hx
        · exact ⟨h.1, List.mem_cons_self .., h.2⟩
        · obtain ⟨hv, hn, hw⟩ := hmem x hx
          exact ⟨fun hc => hv (Finset.mem_insert_of_mem hc), List.mem_cons_of_mem _ hn, hw⟩
      · intro y hy hw
        rcases List.mem_cons.mp hy with rfl | hy
        · simp
        · have := hcomp y hy hw
          simp only [Finset.mem_union, Finset.mem_insert, List.mem_toFinset,
            List.toFinset_cons] at this ⊢
          tauto
    · obtain ⟨t, ht, hmem, hcomp⟩ := ih com vis q
      refine ⟨t, ?_, ?_, ?_⟩
      · simp only [List.foldl_cons, expandStep, if_neg h, ht]
      · intro x hx
        obtain ⟨hv, hn, hw⟩ := hmem x hx
        exact ⟨hv, List.mem_cons_of_mem _ hn, hw⟩
      · intro y hy hw
        rcases List.mem_cons.mp hy with rfl | hy
        · have : y ∈ vis := by
            by_contra hv
            exact h ⟨hv, hw⟩
          exact Finset.mem_union_left _ this
        · exact hcomp y hy hw

/-- Either the neighbour fold changes nothing, or it strictly shrinks the
set of unvisited edge endpoints. -/
theorem expandStep_foldl_progress (g : Graph) (cur : NodeId)
    (com vis : Finset NodeId) (q : List NodeId) :
    (g.neighbors cur).foldl (expandStep g cur) (com, vis, q) = (com ∪ ∅, vis ∪ ∅, q) ∨
      (g.edgeNodeSet \
          ((g.neighbors cur).foldl (expandStep g cur) (com, vis, q)).2.1).card <
        (g.edgeNodeSet \ vis).card := by
  obtain ⟨t, ht, hmem, -⟩ := expandStep_foldl_spec g cur (g.neighbors cur) com vis q
  rcases t with - | ⟨x, t⟩
  · left; simpa using ht
  · right
    rw [ht]
    apply Finset.card_lt_card
    constructor
    · exact Finset.sdiff_subset_sdiff le_rfl Finset.subset_union_left
    · intro hsub
      obtain ⟨hv, hn, -⟩ := hmem x (List.mem_cons_self ..)
      have hxE : x ∈ g.edgeNodeSet := mem_edgeNodeSet_of_mem_neighbors hn
      have hx1 : x ∈ g.edgeNodeSet \ vis := Finset.mem_sdiff.mpr ⟨hxE, hv⟩
      have hx2 := hsub hx1
      rw [Finset.mem_sdiff] at hx2
      exact hx2.2 (Finset.mem_union_right _ (by simp))

/-- The `while queue` loop of `_expand_community`.  Arguments: the queue,
the community and the visited set; result: the final community and visited
set. -/
def expandLoop (g : Graph) : List NodeId → Finset NodeId → Finset NodeId →
    Finset NodeId × Finset NodeId
  | [], community, visited => (community, visited)
  | current_node :: rest, community, visited =>
    let st := (g.neighbors current_node).foldl (expandStep g current_node)
      (community, visited, rest)
    expandLoop g st.2.2 st.1 st.2.1
termination_by queue _ visited => ((g.edgeNodeSet \ visited).card, queue.length)
decreasing_by
  rcases expandStep_foldl_progress g current_node community visited rest with h | h
  · rw [h]
    simp only [Finset.union_empty, List.length_cons]
    exact Prod.Lex.right _ (Nat.lt_succ_self _)
  · exact Prod.Lex.left _ _ h

/-- `NetworkAnalyzer._expand_community`: seed the community, the visited
set and the queue with the start node and run the loop.  (`visited` is the
caller's set, mutated in place in Python; here the updated set is
returned.) -/
def expand_community (g : Graph) (start_node : NodeId) (visited : Finset NodeId) :
    Finset NodeId × Finset NodeId :=
  expandLoop g [start_node] {start_node} (insert start_node visited)

/-- `NetworkAnalyzer._louvain_approximation`: iterate the node list in
order, expanding a community from every not-yet-visited node.  The
`communities` dictionary with keys `0, 1, …` is the accumulated list. -/
def louvainLoop (g : Graph) : List NodeId → Finset NodeId → List (Finset NodeId) →
    List (Finset NodeId) × Finset NodeId
  | [], visited, communities => (communities, visited)
  | node :: rest, visited, communities =>
    if node ∈ visited then louvainLoop g rest visited communities
    else
      let r := expand_community g node visited
      louvainLoop g rest r.2 (communities ++ [r.1])

def louvain_approximation (g : Graph) : List (Finset NodeId) :=
  (louvainLoop g g.nodes ∅ []).1

/-- Internal edge count of the subgraph induced by a community. -/
def subgraph_edge_count (g : Graph) (c : Finset NodeId) : Nat :=
  (g.edges.filter fun e => e.u ∈ c ∧ e.v ∈ c).length

/-- `NetworkAnalyzer._calculate_modularity`: sum over communities of the
internal edge fraction (`0.0` for an edgeless graph). -/
def calculate_modularity (g : Graph) (communities : List (Finset NodeId)) : ℚ :=
  if g.edges.length = 0 then 0
  else (communities.map fun c =>
    (subgraph_edge_count g c : ℚ) / (g.edges.length : ℚ)).sum

/-- The dictionary returned by `detect_communities` (the presentational
`community_stats` sub-dictionary of sizes and densities is not read by
anything specified and is omitted). -/
structure CommunitiesResult where
  communities : List (Finset NodeId)
  modularity : ℚ
  community_count : Nat
deriving DecidableEq

/-- `NetworkAnalyzer.detect_communities` (nothing in the modelled body can
raise, so the `except` branch is dead). -/
def detect_communities (g : Graph) : CommunitiesResult :=
  let communities := louvain_approximation g
  ⟨communities, calculate_modularity g communities, communities.length⟩

/-! ## Orchestrator (`MainAnalysisEngine`)

`analyze_channel_relationships` starts three tasks and awaits each inside
`try`/`except`; a branch that raises is replaced by the empty dictionary
`{}`.  Each awaited branch outcome is therefore an `Except` value fed into
the assembly step; `none` in the report models the `{}` replacement.  The
summary is computed from whatever the three slots hold, with the `.get`
defaults of `_create_relationship_summary`. -/

/-- `duplicate_analysis` sub-dictionary of the content branch. -/
structure DuplicateAnalysis where
  total_duplicates : Nat
  duplicates : List DupRecord
  duplicate_rate : ℚ
deriving DecidableEq

/-- One entry of `similarity_analysis` in the content branch. -/
structure ChannelSimilarity where
  channel_id : Option Int
  channel_name : Option String
  average_similarity : ℚ
  max_similarity : ℚ
  high_similarity_count : Nat
deriving DecidableEq

/-- The dictionary returned by `_analyze_content_relationships`. -/
structure ContentResult where
  duplicate_analysis : DuplicateAnalysis
  similarity_analysis : List ChannelSimilarity
  topic_analysis : TopicsResult
deriving DecidableEq

/-- One correlation record of `calculate_time_correlation`, as carried in
the temporal branch (`related_channel` identification included). -/
structure Correlation where
  hourly_correlation : ℚ
  correlation_p_value : ℚ
  synchronized_posts : Nat
  sync_details : List SyncRecord
  sequence_analysis : SequenceAnalysis
  related_channel_id : Option Int
deriving DecidableEq

/-- `posting_patterns` sub-dictionary of the temporal branch. -/
structure PostingPatterns where
  hourly_distribution : List (Nat × Nat)
  peak_hours : List Nat
  total_posts : Nat
  average_posts_per_hour : ℚ
deriving DecidableEq

/-- The dictionary returned by `_analyze_temporal_relationships`. -/
structure TemporalResult where
  posting_patterns : PostingPatterns
  correlations : List Correlation
deriving DecidableEq

/-- Graph statistics of the network branch. -/
structure GraphStats where
  nodes_count : Nat
  edges_count : Nat
  density : ℚ
  is_connected : Bool
deriving DecidableEq

/-- The dictionary returned by `_analyze_network_relationships` (in the
no-connections early return only `metrics` is present). -/
structure NetworkResult where
  metrics : NetworkMetrics
  communities : Option CommunitiesResult
  graph_stats : Option GraphStats
deriving DecidableEq

/-- One element of `key_insights`.  Python builds display strings; the
insight content is modelled instead of the formatted text. -/
inductive KeyInsight where
  | high_duplicate_rate (rate : ℚ)
  | strong_time_correlations (count : Nat)
deriving DecidableEq

/-- The `relationship_summary` dictionary. -/
structure RelationshipSummary where
  total_connections : Nat
  strong_connections : Nat
  connection_types : List (String × Nat)
  confidence_score : ℚ
  key_insights : List KeyInsight
deriving DecidableEq

/-- `MainAnalysisEngine._create_relationship_summary`, reading the three
branch slots with the `.get` default chain (`{}` slots yield the default
at every read). -/
def create_relationship_summary (content : Option ContentResult)
    (temporal : Option TemporalResult) (network : Option NetworkResult) :
    RelationshipSummary :=
  let duplicate_rate : ℚ :=
    match content with
    | some c => c.duplicate_analysis.duplicate_rate
    | none => 0
  let correlations : List Correlation :=
    match temporal with
    | some t => t.correlations
    | none => []
  let strong_time_correlations :=
    correlations.filter fun c => c.hourly_correlation > 6/10
  let insights :=
    (if duplicate_rate > 1/10 then [KeyInsight.high_duplicate_rate duplicate_rate] else [])
      ++ (if strong_time_correlations.isEmpty then []
          else [KeyInsight.strong_time_correlations strong_time_correlations.length])
  let metrics : Option NetworkMetrics := network.map (·.metrics)
  let pagerank_val : ℚ :=
    match metrics with
    | some m => m.pagerank.getD 0
    | none => 0
  let confidence_factors : List ℚ :=
    (if duplicate_rate > 0 then [min (duplicate_rate * 2) 1] else [])
      ++ (if strong_time_correlations.isEmpty then []
          else [listMean (strong_time_correlations.map (·.hourly_correlation))])
      ++ (if pagerank_val > 0 then [min (pagerank_val * 10) 1] else [])
  { total_connections :=
      match metrics with
      | some m => m.total_connections
      | none => 0
    strong_connections :=
      match metrics with
      | some m => m.strong_connections
      | none => 0
    connection_types :=
      match metrics with
      | some m => m.connection_types
      | none => []
    confidence_score :=
      if confidence_factors.isEmpty then 0 else listMean confidence_factors
    key_insights := insights }

/-- The report returned by `analyze_channel_relationships`. -/
structure Report where
  channel_id : Int
  analysis_timestamp : Nat
  content_analysis : Option ContentResult
  temporal_analysis : Option TemporalResult
  network_analysis : Option NetworkResult
  relationship_summary : RelationshipSummary
deriving DecidableEq

/-- `try: result = await task; … except: … = {}` for one branch. -/
def settleBranch {α : Type} (outcome : Except String α) : Option α :=
  match outcome with
  | .ok r => some r
  | .error _ => none

/-- `MainAnalysisEngine.analyze_channel_relationships`: assemble the
report from the three awaited branch outcomes (each an `Except` value:
the analysis result or the exception it raised) and compute the summary.
`now_ts` stands for `datetime.now()`. -/
def analyze_channel_relationships (channel_id : Int) (now_ts : Nat)
    (content_run : Except String ContentResult)
    (temporal_run : Except String TemporalResult)
    (network_run : Except String NetworkResult) : Report :=
  let content_analysis := settleBranch content_run
  let temporal_analysis := settleBranch temporal_run
  let network_analysis := settleBranch network_run
  { channel_id := channel_id
    analysis_timestamp := now_ts
    content_analysis := content_analysis
    temporal_analysis := temporal_analysis
    network_analysis := network_analysis
    relationship_summary :=
      create_relationship_summary content_analysis temporal_analysis network_analysis }

/-! ## Claim theorems -/

/-- C1: for every input to `analyze_channel_relationships`, a branch whose
awaited task raised has its entry in the result replaced by the empty
mapping (`none`), every branch's entry depends only on that branch's own
outcome (the other branches are unchanged), and the call always returns a
complete report whose `relationship_summary` is computed from the three
settled entries; no branch exception propagates out (the assembly is a
total function of the three outcomes). -/
theorem analyze_isolates_branch_failures (channel_id : Int) (now_ts : Nat)
    (content_run : Except String ContentResult)
    (temporal_run : Except String TemporalResult)
    (network_run : Except String NetworkResult) :
    ((analyze_channel_relationships channel_id now_ts content_run temporal_run
        network_run).content_analysis = settleBranch content_run ∧
     (analyze_channel_relationships channel_id now_ts content_run temporal_run
        network_run).temporal_analysis = settleBranch temporal_run ∧
     (analyze_channel_relationships channel_id now_ts content_run temporal_run
        network_run).network_analysis = settleBranch network_run) ∧
    (∀ e, content_run = .error e →
      (analyze_channel_relationships channel_id now_ts content_run temporal_run
        network_run).content_analysis = none) ∧
    (∀ e, temporal_run = .error e →
      (analyze_channel_relationships channel_id now_ts content_run temporal_run
        network_run).temporal_analysis = none) ∧
    (∀ e, network_run = .error e →
      (analyze_channel_relationships channel_id now_ts content_run temporal_run
        network_run).network_analysis = none) ∧
    (analyze_channel_relationships channel_id now_ts content_run temporal_run
        network_run).relationship_summary =
      create_relationship_summary (settleBranch content_run)
        (settleBranch temporal_run) (settleBranch network_run) := by
  refine ⟨⟨rfl, rfl, rfl⟩, ?_, ?_, ?_, rfl⟩ <;> · intro e he; subst he; rfl

/-- Sample branch results used to instantiate orchestrator statements. -/
def sampleContent : ContentResult :=
  { duplicate_analysis := ⟨0, [], 0⟩, similarity_analysis := [], topic_analysis := ⟨[], []⟩ }

def sampleTemporal : TemporalResult :=
  { posting_patterns := ⟨[], [], 0, 0⟩, correlations := [] }

theorem analyze_isolates_branch_failures_witness :
    (analyze_channel_relationships 1 0 (.error "boom") (.ok sampleTemporal)
      (.error "late")).content_analysis = none ∧
    (analyze_channel_relationships 1 0 (.error "boom") (.ok sampleTemporal)
      (.error "late")).temporal_analysis = some sampleTemporal ∧
    (analyze_channel_relationships 1 0 (.error "boom") (.ok sampleTemporal)
      (.error "late")).network_analysis = none ∧
    (analyze_channel_relationships 1 0 (.error "boom") (.ok sampleTemporal)
      (.error "late")).relationship_summary =
      create_relationship_summary none (some sampleTemporal) none := by
  have h := analyze_isolates_branch_failures 1 0 (.error "boom") (.ok sampleTemporal)
    (.error "late")
  exact ⟨h.2.1 "boom" rfl, h.1.2.1, h.2.2.2.1 "late" rfl, h.2.2.2.2⟩

/-- C2 (the claim is right, the code is wrong): at the failing input
`t = "hello world"` the code returns `overall = 0.2` without an embedding
model and `0.6` with a perfect one — never `1.0`, because the pairwise
TF-IDF fit always raises (`min_df=2` exceeds `max_df·2 = 1.9` documents)
and is caught as `0.0`, capping `overall` at
`0.4·0 + 0.4·semantic + 0.2·lexical ≤ 0.6`.  The repository's own test
(`test_text_similarity_identical`) asserts `overall == 1.0`. -/
theorem self_similarity_failing_input :
    (calculate_text_similarity none "hello world" "hello world").overall = 1/5 ∧
    (calculate_text_similarity (some fun _ _ => 1) "hello world" "hello world").overall
      = 3/5 ∧
    (calculate_text_similarity none "hello world" "hello world").overall ≠ 1 ∧
    (calculate_text_similarity (some fun _ _ => 1) "hello world" "hello world").overall
      ≠ 1 ∧
    (calculate_text_similarity none "hello world" "hello world").tfidf = 0 := by
  refine ⟨by with_unfolding_all rfl, by with_unfolding_all rfl, ?_, ?_,
    by with_unfolding_all rfl⟩
  · rw [show (calculate_text_similarity none "hello world" "hello world").overall = 1/5
      from by with_unfolding_all rfl]
    norm_num
  · rw [show (calculate_text_similarity (some fun _ _ => 1) "hello world"
      "hello world").overall = 3/5 from by with_unfolding_all rfl]
    norm_num

/-- C3: `calculate_text_similarity` returns the all-zero score when either
raw input is empty, and otherwise returns the three sub-scores of the two
normalised texts with `overall = 0.4·tfidf + 0.4·semantic + 0.2·lexical`. -/
theorem text_similarity_formula (model : SemanticModel) (text1 text2 : String) :
    (text1 = "" ∨ text2 = "" →
      calculate_text_similarity model text1 text2 = ⟨0, 0, 0, 0⟩) ∧
    (text1 ≠ "" → text2 ≠ "" →
      calculate_text_similarity model text1 text2 =
        { tfidf := calculate_tfidf_similarity (clean_text text1) (clean_text text2)
          semantic := calculate_semantic_similarity model (clean_text text1)
            (clean_text text2)
          lexical := calculate_lexical_similarity (clean_text text1) (clean_text text2)
          overall :=
            2/5 * calculate_tfidf_similarity (clean_text text1) (clean_text text2)
              + 2/5 * calculate_semantic_similarity model (clean_text text1)
                  (clean_text text2)
              + 1/5 * calculate_lexical_similarity (clean_text text1)
                  (clean_text text2) }) := by
  constructor
  · intro h
    simp only [calculate_text_similarity, if_pos h]
  · intro h1 h2
    simp only [calculate_text_similarity]
    rw [if_neg (by tauto)]

theorem text_similarity_formula_witness :
    calculate_text_similarity none "" "ab" = ⟨0, 0, 0, 0⟩ ∧
    calculate_text_similarity none "ab" "cd" =
      { tfidf := calculate_tfidf_similarity (clean_text "ab") (clean_text "cd")
        semantic := calculate_semantic_similarity none (clean_text "ab") (clean_text "cd")
        lexical := calculate_lexical_similarity (clean_text "ab") (clean_text "cd")
        overall :=
          2/5 * calculate_tfidf_similarity (clean_text "ab") (clean_text "cd")
            + 2/5 * calculate_semantic_similarity none (clean_text "ab") (clean_text "cd")
            + 1/5 * calculate_lexical_similarity (clean_text "ab") (clean_text "cd") } :=
  ⟨(text_similarity_formula none "" "ab").1 (Or.inl rfl),
   (text_similarity_formula none "ab" "cd").2 (by decide) (by decide)⟩

/-- The nested loops of `detect_duplicates` enumerate exactly the
two-element sublists of the post list, once each. -/
theorem pairsAfter_sublist : ∀ (l : List Post) (p q : Post),
    (p, q) ∈ pairsAfter l ↔ [p, q].Sublist l := by
  intro l
  induction l with
  | nil => simp [pairsAfter]
  | cons x rest ih =>
    intro p q
    simp only [pairsAfter, List.mem_append, List.mem_map, ih]
    constructor
    · rintro (⟨q2, hq, heq⟩ | h)
      · obtain ⟨h1, h2⟩ := Prod.mk.injEq .. |>.mp heq
        subst h1; subst h2
        exact List.Sublist.cons₂ x (List.singleton_sublist.mpr hq)
      · exact List.Sublist.cons x h
    · intro h
      cases h with
      | cons a h2 => right; exact h2
      | cons₂ a h2 => left; exact ⟨q, List.singleton_sublist.mp h2, rfl⟩

/-- C4: `detect_duplicates` returns exactly the pairs of distinct posts
(the two-element sublists, i.e. the unordered `i < j` pairs, each once)
whose similarity `overall` strictly exceeds the threshold, with
`duplicate_type` classified by `overall > 0.95`, then `semantic > 0.8`,
then `tfidf > 0.8`, then `"partial"`, in that order; the default threshold
is `0.85`. -/
theorem detect_duplicates_spec (model : SemanticModel) (threshold : ℚ)
    (posts : List Post) :
    detect_duplicates model threshold posts =
      (pairsAfter posts).filterMap (fun pq =>
        let s := calculate_text_similarity model pq.1.text pq.2.text
        if s.overall > threshold then
          some { post1_id := postId pq.1
                 post2_id := postId pq.2
                 similarity_metrics := s
                 time_diff_minutes :=
                   content_time_diff pq.1.published_at pq.2.published_at
                 duplicate_type :=
                   if s.overall > 95/100 then "exact"
                   else if s.semantic > 8/10 then "semantic"
                   else if s.tfidf > 8/10 then "textual"
                   else "partial" }
        else none) ∧
    (∀ p q : Post, (p, q) ∈ pairsAfter posts ↔ [p, q].Sublist posts) ∧
    ({} : AnalysisConfig).duplicate_threshold = 85/100 :=
  ⟨rfl, pairsAfter_sublist posts, rfl⟩

/-- A concrete stand-in LDA pipeline for instantiating `extract_topics`
statements: it always succeeds and returns one topic together with a
distribution row per document. -/
def onePipeline : LdaPipeline := fun texts n_topics =>
  .ok ⟨[⟨0, ["kw"], 1⟩], texts.map fun _ => (List.range n_topics).map fun _ => 1⟩

/-- C5 counterexample: `[""]` has `1 ≥ n_topics = 1` elements and the
pipeline at hand succeeds with a non-empty result on every input, yet
`extract_topics` returns the empty result, because the guard counts only
truthy texts. -/
theorem extract_topics_counterexample :
    1 ≤ ([""] : List String).length ∧
    extract_topics onePipeline [""] 1 = ⟨[], []⟩ ∧
    (extract_topics onePipeline ["ab"] 1).topics ≠ [] := by
  refine ⟨by decide, by with_unfolding_all rfl, ?_⟩
  rw [show extract_topics onePipeline ["ab"] 1 =
    ⟨[⟨0, ["kw"], 1⟩], [[1]]⟩ from by with_unfolding_all rfl]
  simp

/-- C5 (amended): `extract_topics` returns the empty result whenever fewer
than `n_topics` of the input texts are truthy — in particular whenever the
input list itself is shorter than `n_topics` — and when at least `n_topics`
texts are truthy and the vectorise-and-LDA pipeline succeeds on the cleaned
truthy texts, its result is returned unchanged (so the result is empty only
if the pipeline's is, or the pipeline raised). -/
theorem extract_topics_amended (pipeline : LdaPipeline) (texts : List String)
    (n_topics : Nat) :
    (texts.length < n_topics → extract_topics pipeline texts n_topics = ⟨[], []⟩) ∧
    ((texts.filter fun t => t ≠ "").length < n_topics →
      extract_topics pipeline texts n_topics = ⟨[], []⟩) ∧
    (∀ r, ¬ (texts.filter fun t => t ≠ "").length < n_topics →
      pipeline ((texts.filter fun t => t ≠ "").map clean_text) n_topics = .ok r →
      extract_topics pipeline texts n_topics = r) := by
  have hlen : ((texts.filter fun t => t ≠ "").map clean_text).length =
      (texts.filter fun t => t ≠ "").length := List.length_map ..
  refine ⟨?_, ?_, ?_⟩
  · intro h
    have hf : (texts.filter fun t => t ≠ "").length < n_topics :=
      lt_of_le_of_lt (List.length_filter_le _ _) h
    simp only [extract_topics]
    rw [if_pos (hlen ▸ hf)]
  · intro h
    simp only [extract_topics]
    rw [if_pos (hlen ▸ h)]
  · intro r h hok
    simp only [extract_topics]
    rw [if_neg (hlen ▸ h), hok]

theorem extract_topics_amended_witness :
    extract_topics onePipeline ["a"] 2 = ⟨[], []⟩ ∧
    extract_topics onePipeline ["a", ""] 2 = ⟨[], []⟩ ∧
    extract_topics onePipeline ["a", "b"] 2 =
      ⟨[⟨0, ["kw"], 1⟩], [[1, 1], [1, 1]]⟩ := by
  refine ⟨(extract_topics_amended onePipeline ["a"] 2).1 (by decide),
    (extract_topics_amended onePipeline ["a", ""] 2).2.1 (by decide),
    (extract_topics_amended onePipeline ["a", "b"] 2).2.2 _ (by decide) ?_⟩
  with_unfolding_all rfl

/-- Trivial instantiation of the abstract `networkx` centrality
collaborators (all-zero values, always converging). -/
def nxZero : NxCentrality :=
  { betweenness := fun _ _ => 0
    closeness := fun _ _ => 0
    eigenvector := fun _ => .ok fun _ => 0
    pagerank := fun _ => .ok fun _ => 0
    clustering := fun _ _ => 0
    is_connected := fun _ => true }

/-- A graph with the single node `1` and no edges. -/
def singletonGraph : Graph := ⟨[Sum.inl 1], []⟩

/-- A graph with nodes `1, 2` and one edge. -/
def twoNodeGraph : Graph := ⟨[Sum.inl 1, Sum.inl 2], [⟨Sum.inl 1, Sum.inl 2, ⟨1, "x"⟩⟩]⟩

/-- C6 counterexample: on the one-node graph containing channel `1`, the
metrics dictionary for channel `1` has no `degree_centrality` key at all
(the centrality block is only inserted when `|V| > 1`), rather than the
claimed value `0`. -/
theorem node_metrics_counterexample :
    (Sum.inl 1 : NodeId) ∈ singletonGraph.nodes ∧
    (calculate_network_metrics nxZero singletonGraph (Sum.inl 1)).degree_centrality
      = none := by
  exact ⟨by decide, by with_unfolding_all rfl⟩

/-- C6 (amended): `calculate_network_metrics` returns the all-zero report
exactly when the channel is not a node of the graph; when the channel is a
node and the graph has at least two nodes (and the PageRank iteration
converges), the report's `degree_centrality` equals
`degree / (|V| - 1)`; when the channel is a node of a graph with at most
one node, the `degree_centrality` key is absent from the report, not `0`. -/
theorem node_metrics_amended (nx : NxCentrality) (g : Graph) (channel_id : NodeId) :
    (channel_id ∉ g.nodes → calculate_network_metrics nx g channel_id = empty_metrics) ∧
    (channel_id ∈ g.nodes → g.nodes.length ≤ 1 →
      (calculate_network_metrics nx g channel_id).degree_centrality = none) ∧
    (channel_id ∈ g.nodes → 1 < g.nodes.length → ∀ pr, nx.pagerank g = .ok pr →
      (calculate_network_metrics nx g channel_id).degree_centrality =
        some ((g.degree channel_id : ℚ) / ((g.nodes.length : ℚ) - 1))) := by
  refine ⟨?_, ?_, ?_⟩
  · intro h
    simp only [calculate_network_metrics]
    rw [if_pos h]
  · intro h hlen
    simp only [calculate_network_metrics]
    rw [if_neg (by simpa using h), if_neg (by omega)]
    rfl
  · intro h hlen pr hpr
    simp only [calculate_network_metrics]
    rw [if_neg (by simpa using h), if_pos hlen]
    simp only [Option.map_some, calculate_centrality_metrics, hpr]
    rfl

theorem node_metrics_amended_witness :
    calculate_network_metrics nxZero singletonGraph (Sum.inl 2) = empty_metrics ∧
    (calculate_network_metrics nxZero singletonGraph (Sum.inl 1)).degree_centrality
      = none ∧
    (calculate_network_metrics nxZero twoNodeGraph (Sum.inl 1)).degree_centrality =
      some ((twoNodeGraph.degree (Sum.inl 1) : ℚ) /
        ((twoNodeGraph.nodes.length : ℚ) - 1)) :=
  ⟨(node_metrics_amended nxZero singletonGraph (Sum.inl 2)).1 (by decide),
   (node_metrics_amended nxZero singletonGraph (Sum.inl 1)).2.1 (by decide) (by decide),
   (node_metrics_amended nxZero twoNodeGraph (Sum.inl 1)).2.2 (by decide) (by decide)
     (fun _ => 0) rfl⟩

/-- `addConnection` leaves the graph unchanged when the truthiness guard
rejects the connection. -/
theorem addConnection_rejected {conn : Connection} (g : Graph)
    (h : connectionAccepted conn = false) : addConnection g conn = g := by
  unfold addConnection
  unfold connectionAccepted at h
  cases hs : conn.source_id with
  | none => rfl
  | some a =>
    cases ht : conn.target_id with
    | none => rfl
    | some b =>
      have h2 : (nodeTruthy a && nodeTruthy b) = false := by
        rw [hs, ht] at h
        exact h
      show (if (nodeTruthy a && nodeTruthy b) = true then
        g.add_edge a b ⟨conn.strength, conn.connection_type⟩ else g) = g
      rw [h2]
      simp

/-- Membership in the node list after `add_edge`. -/
theorem mem_add_edge_nodes {g : Graph} {a b u : NodeId} {d : EdgeData}
    (h : u ∈ (g.add_edge a b d).nodes) : u ∈ g.nodes ∨ u = a ∨ u = b := by
  simp only [Graph.add_edge] at h
  split_ifs at h <;>
    (try simp only [List.mem_append, List.mem_singleton] at h) <;> tauto

/-- Both endpoints of every node and edge of a graph are truthy. -/
def truthyGraph (g : Graph) : Prop :=
  (∀ u ∈ g.nodes, nodeTruthy u) ∧ ∀ e ∈ g.edges, nodeTruthy e.u ∧ nodeTruthy e.v

theorem add_edge_truthy {g : Graph} {a b : NodeId} {d : EdgeData}
    (hg : truthyGraph g) (ha : nodeTruthy a) (hb : nodeTruthy b) :
    truthyGraph (g.add_edge a b d) := by
  obtain ⟨hn, he⟩ := hg
  constructor
  · intro u hu
    rcases mem_add_edge_nodes hu with h | rfl | rfl
    · exact hn u h
    · exact ha
    · exact hb
  · intro e hee
    simp only [Graph.add_edge] at hee
    split_ifs at hee with h1
    · rw [List.mem_map] at hee
      obtain ⟨e0, he0, rfl⟩ := hee
      have h2 := he e0 he0
      by_cases hj : e0.joins a b = true
      · rw [if_pos hj]
        exact h2
      · rw [if_neg hj]
        exact h2
    · rw [List.mem_append, List.mem_singleton] at hee
      rcases hee with hee | rfl
      · exact he e hee
      · exact ⟨ha, hb⟩

theorem addConnection_truthy {g : Graph} (conn : Connection)
    (hg : truthyGraph g) : truthyGraph (addConnection g conn) := by
  unfold addConnection
  cases hs : conn.source_id with
  | none => exact hg
  | some a =>
    cases ht : conn.target_id with
    | none => exact hg
    | some b =>
      show truthyGraph (if (nodeTruthy a && nodeTruthy b) = true then
        g.add_edge a b ⟨conn.strength, conn.connection_type⟩ else g)
      by_cases h : (nodeTruthy a && nodeTruthy b) = true
      · rw [if_pos h]
        rw [Bool.and_eq_true] at h
        exact add_edge_truthy hg h.1 h.2
      · rw [if_neg h]
        exact hg

theorem foldl_addConnection_truthy :
    ∀ (connections : List Connection) (g : Graph), truthyGraph g →
      truthyGraph (connections.foldl addConnection g) := by
  intro connections
  induction connections with
  | nil => intro g hg; exact hg
  | cons c rest ih =>
    intro g hg
    exact ih (addConnection g c) (addConnection_truthy c hg)

/-- C9: a connection record produces an edge only when both `source_id`
and `target_id` are truthy (a rejected record leaves the graph exactly as
it was), so a channel with id `0` — or the empty string, or a missing
id — never appears as a node or an edge endpoint of the built graph. -/
theorem build_network_truthy (connections : List Connection) :
    (∀ conn, connectionAccepted conn = false →
      build_channel_network (connections ++ [conn]) =
        build_channel_network connections) ∧
    (∀ u ∈ (build_channel_network connections).nodes, nodeTruthy u) ∧
    (∀ e ∈ (build_channel_network connections).edges,
      nodeTruthy e.u ∧ nodeTruthy e.v) ∧
    (Sum.inl 0 : NodeId) ∉ (build_channel_network connections).nodes ∧
    (Sum.inr "" : NodeId) ∉ (build_channel_network connections).nodes := by
  have htr : truthyGraph (build_channel_network connections) :=
    foldl_addConnection_truthy connections Graph.empty
      ⟨fun u hu => absurd hu (by simp [Graph.empty]),
       fun e he => absurd he (by simp [Graph.empty])⟩
  refine ⟨?_, htr.1, htr.2, ?_, ?_⟩
  · intro conn h
    unfold build_channel_network
    rw [List.foldl_append, List.foldl_cons, List.foldl_nil,
      addConnection_rejected _ h]
  · intro hmem
    have := htr.1 _ hmem
    simp [nodeTruthy] at this
  · intro hmem
    have := htr.1 _ hmem
    simp [nodeTruthy] at this

theorem build_network_truthy_witness :
    build_channel_network
        [{ source_id := some (Sum.inl 0), target_id := some (Sum.inl 2) }] =
      build_channel_network [] ∧
    build_channel_network
        [{ source_id := some (Sum.inl 1), target_id := some (Sum.inr "") }] =
      build_channel_network [] ∧
    build_channel_network [{ source_id := none, target_id := some (Sum.inl 2) }] =
      build_channel_network [] := by
  have h1 := (build_network_truthy []).1
    { source_id := some (Sum.inl 0), target_id := some (Sum.inl 2) } (by decide)
  have h2 := (build_network_truthy []).1
    { source_id := some (Sum.inl 1), target_id := some (Sum.inr "") } (by decide)
  have h3 := (build_network_truthy []).1
    { source_id := none, target_id := some (Sum.inl 2) } (by decide)
  simpa using ⟨h1, h2, h3⟩

/-- Once the running minimum of `_analyze_posting_sequence` is `0`, no
later candidate can strictly improve it, so the scan state is frozen. -/
theorem scanStep_stays (post1 : Post) :
    ∀ (rest : List Post) (x : Post),
      rest.foldl (scanStep post1) (some (x, 0)) = some (x, 0) := by
  intro rest
  induction rest with
  | nil => intro x; rfl
  | cons p2 tail ih =>
    intro x
    rw [List.foldl_cons]
    have hstep : scanStep post1 (some (x, 0)) p2 = some (x, 0) := by
      unfold scanStep
      have hfalse :
          (decide (|time_diff_signed post1.published_at p2.published_at| < |(0:ℚ)|) &&
            decide (|time_diff_signed post1.published_at p2.published_at| ≤ 120))
            = false := by
        rw [Bool.and_eq_false_iff]
        left
        simp [abs_nonneg, not_lt]
      simp only [hfalse, Bool.false_eq_true, if_false]
    rw [hstep, ih x]

/-- C8: a missing `published_at` on either side of a cross pair yields the
time difference `0.0` minutes rather than skipping the pair: the signed and
absolute differences are defined to be `0.0`, the pair is therefore kept by
the 30-minute synchronisation filter and reported with
`time_diff_minutes = 0.0`, and in the lead/lag scan a post with no
timestamp matches the first post of the other channel with difference
`0.0` (so it contributes an entry instead of being skipped). -/
theorem missing_timestamps_counted (posts1 posts2 : List Post) :
    (∀ d1 d2 : Option ℚ, d1 = none ∨ d2 = none →
      time_diff_signed d1 d2 = 0 ∧ temporal_time_diff d1 d2 = 0) ∧
    (∀ p1 ∈ posts1, ∀ p2 ∈ posts2,
      p1.published_at = none ∨ p2.published_at = none →
      syncRecord p1 p2 ∈ find_synchronized_posts posts1 posts2 ∧
      (syncRecord p1 p2).time_diff_minutes = 0) ∧
    (∀ p1 ∈ posts1, p1.published_at = none → ∀ q2 rest2, posts2 = q2 :: rest2 →
      scanClosest p1 posts2 = some (q2, 0)) := by
  have hdiff : ∀ d1 d2 : Option ℚ, d1 = none ∨ d2 = none →
      time_diff_signed d1 d2 = 0 ∧ temporal_time_diff d1 d2 = 0 := by
    rintro d1 d2 (rfl | rfl)
    · exact ⟨rfl, by simp [temporal_time_diff, time_diff_signed]⟩
    · cases d1 <;> exact ⟨rfl, by simp [temporal_time_diff, time_diff_signed]⟩
  have habs : ∀ p1 p2 : Post, p1.published_at = none ∨ p2.published_at = none →
      temporal_time_diff p1.published_at p2.published_at = 0 := by
    rintro p1 p2 (h | h) <;> rw [h] at * <;>
      [exact (hdiff _ _ (Or.inl rfl)).2; exact (hdiff _ _ (Or.inr rfl)).2]
  refine ⟨hdiff, ?_, ?_⟩
  · intro p1 hp1 p2 hp2 hmiss
    have h0 := habs p1 p2 hmiss
    constructor
    · unfold find_synchronized_posts
      rw [List.mem_mergeSort, List.mem_flatMap]
      refine ⟨p1, hp1, ?_⟩
      rw [List.mem_filterMap]
      refine ⟨p2, hp2, ?_⟩
      rw [h0]
      norm_num
    · show temporal_time_diff p1.published_at p2.published_at = 0
      exact h0
  · intro p1 hp1 hnone q2 rest2 hps
    subst hps
    unfold scanClosest
    rw [List.foldl_cons]
    have hstep : scanStep p1 none q2 = some (q2, 0) := by
      unfold scanStep
      have h0 : time_diff_signed p1.published_at q2.published_at = 0 := by
        rw [hnone]; rfl
      rw [h0]
      norm_num
    rw [hstep]
    have h0 : time_diff_signed p1.published_at q2.published_at = 0 := by
      rw [hnone]; rfl
    exact scanStep_stays p1 rest2 q2

/-- A post with no timestamp and a post with one, for instantiations. -/
def postNoDate : Post := { id := some 1 }

def postWithDate : Post := { id := some 2, published_at := some 600 }

theorem missing_timestamps_counted_witness :
    syncRecord postNoDate postWithDate ∈
      find_synchronized_posts [postNoDate] [postWithDate] ∧
    scanClosest postNoDate [postWithDate] = some (postWithDate, 0) := by
  have h := missing_timestamps_counted [postNoDate] [postWithDate]
  exact ⟨(h.2.1 postNoDate (List.mem_singleton.mpr rfl) postWithDate
      (List.mem_singleton.mpr rfl) (Or.inl rfl)).1,
    h.2.2 postNoDate (List.mem_singleton.mpr rfl) rfl postWithDate [] rfl⟩

/-! ## Strong reachability: the relation `_expand_community` traverses -/

/-- One BFS step of `_expand_community`: `v` is a neighbour of `u` whose
(first stored) edge weight exceeds `0.5`. -/
def strongAdj (g : Graph) (u v : NodeId) : Prop :=
  v ∈ g.neighbors u ∧ g.edge_weight u v > 1/2

/-- Adjacency regardless of weight. -/
def graphAdj (g : Graph) (u v : NodeId) : Prop :=
  v ∈ g.neighbors u

instance (g : Graph) (u v : NodeId) : Decidable (graphAdj g u v) :=
  inferInstanceAs (Decidable (v ∈ g.neighbors u))

/-- Reachability along edges of weight above `0.5`. -/
def strongReach (g : Graph) : NodeId → NodeId → Prop :=
  Relation.ReflTransGen (strongAdj g)

theorem Edge.joins_symm (e : Edge) (a b : NodeId) : e.joins a b = e.joins b a := by
  simp only [Edge.joins]
  rw [Bool.or_comm]

theorem mem_neighbors {g : Graph} {n x : NodeId} :
    x ∈ g.neighbors n ↔ ∃ e ∈ g.edges, e.joins n x = true := by
  unfold Graph.neighbors
  rw [List.mem_filterMap]
  constructor
  · rintro ⟨e, he, hx⟩
    refine ⟨e, he, ?_⟩
    unfold Edge.joins
    split_ifs at hx with h1 h2 <;> simp_all
  · rintro ⟨e, he, hj⟩
    refine ⟨e, he, ?_⟩
    unfold Edge.joins at hj
    simp only [Bool.or_eq_true, Bool.and_eq_true, decide_eq_true_eq] at hj
    rcases hj with ⟨h1, h2⟩ | ⟨h1, h2⟩
    · rw [if_pos h1, h2]
    · by_cases h3 : e.u = n
      · rw [if_pos h3]
        rw [h3] at h1
        rw [h2, ← h1]
      · rw [if_neg h3, if_pos h2, h1]

theorem edge_weight_symm (g : Graph) (u v : NodeId) :
    g.edge_weight u v = g.edge_weight v u := by
  unfold Graph.edge_weight
  have h : (fun e : Edge => e.joins u v) = fun e : Edge => e.joins v u :=
    funext fun e => e.joins_symm u v
  rw [h]

theorem strongAdj_symm {g : Graph} {u v : NodeId} (h : strongAdj g u v) :
    strongAdj g v u := by
  obtain ⟨hm, hw⟩ := h
  refine ⟨?_, ?_⟩
  · rw [mem_neighbors] at hm ⊢
    obtain ⟨e, he, hj⟩ := hm
    exact ⟨e, he, by rw [e.joins_symm v u]; exact hj⟩
  · rw [edge_weight_symm]
    exact hw

theorem strongReach_symm {g : Graph} {u v : NodeId} (h : strongReach g u v) :
    strongReach g v u :=
  Relation.ReflTransGen.symmetric (fun _ _ hadj => strongAdj_symm hadj) h

/-- A set closed under `strongAdj` absorbs strong reachability. -/
theorem closed_absorbs_reach {g : Graph} {S : Finset NodeId}
    (hS : ∀ x ∈ S, ∀ y, strongAdj g x y → y ∈ S) {a b : NodeId}
    (ha : a ∈ S) (hr : strongReach g a b) : b ∈ S := by
  induction hr with
  | refl => exact ha
  | tail _ hstep ih => exact hS _ ih _ hstep

/-- Under the graph invariant, every edge endpoint is a node. -/
theorem edgeNodeSet_subset_nodes {g : Graph} (hwf : g.Wf) :
    ∀ x ∈ g.edgeNodeSet, x ∈ g.nodes := by
  intro x hx
  simp only [Graph.edgeNodeSet, Finset.mem_union, List.mem_toFinset,
    List.mem_map] at hx
  rcases hx with ⟨e, he, rfl⟩ | ⟨e, he, rfl⟩
  · exact (hwf.1 e he).1
  · exact (hwf.1 e he).2

/-- Invariant description of the whole BFS loop.  With `V0` the visited
set at entry to `_expand_community`: if the queue sits inside the growing
community, the visited set is exactly `V0` plus the community, the
community is disjoint from `V0`, contains `start`, consists of nodes
strongly reachable from `start` (all of them, apart from `start`, edge
endpoints), and every visited node outside the queue has all its strong
neighbours visited — then all of this persists to the final state, where
moreover the queue is empty, so the final visited set is closed under
`strongAdj`. -/
theorem expandLoop_spec (g : Graph) (start : NodeId) (V0 : Finset NodeId) :
    ∀ (queue : List NodeId) (community visited : Finset NodeId),
    visited = V0 ∪ community →
    Disjoint community V0 →
    start ∈ community →
    (∀ x ∈ queue, x ∈ community) →
    (∀ x ∈ community, strongReach g start x) →
    (∀ x ∈ visited, x ∉ queue → ∀ y, strongAdj g x y → y ∈ visited) →
    (∀ x ∈ community, x = start ∨ x ∈ g.edgeNodeSet) →
    (expandLoop g queue community visited).2 =
        V0 ∪ (expandLoop g queue community visited).1 ∧
      Disjoint (expandLoop g queue community visited).1 V0 ∧
      community ⊆ (expandLoop g queue community visited).1 ∧
      start ∈ (expandLoop g queue community visited).1 ∧
      (∀ x ∈ (expandLoop g queue community visited).1, strongReach g start x) ∧
      (∀ x ∈ (expandLoop g queue community visited).2, ∀ y, strongAdj g x y →
        y ∈ (expandLoop g queue community visited).2) ∧
      (∀ x ∈ (expandLoop g queue community visited).1,
        x = start ∨ x ∈ g.edgeNodeSet) := by
  intro queue community visited
  induction queue, community, visited using expandLoop.induct g with
  | case1 community visited =>
    intro hv hdis hstart _ hreach hclosed hbound
    simp only [expandLoop]
    exact ⟨hv, hdis, Finset.Subset.refl _, hstart, hreach,
      fun x hx y hadj => hclosed x hx (by simp) y hadj, hbound⟩
  | case2 current_node rest community visited st ih =>
    intro hv hdis hstart hq hreach hclosed hbound
    obtain ⟨t, ht, hmem, hcomp⟩ :=
      expandStep_foldl_spec g current_node (g.neighbors current_node)
        community visited rest
    have hst : st = (community ∪ t.toFinset, visited ∪ t.toFinset, rest ++ t) := ht
    rw [hst] at ih
    have hcur : current_node ∈ community := hq current_node (by simp)
    have hreach_cur : strongReach g start current_node := hreach _ hcur
    -- the seven invariants at the new state
    have hv2 : visited ∪ t.toFinset = V0 ∪ (community ∪ t.toFinset) := by
      rw [hv, Finset.union_assoc]
    have hdis2 : Disjoint (community ∪ t.toFinset) V0 := by
      rw [Finset.disjoint_union_left]
      refine ⟨hdis, Finset.disjoint_left.mpr ?_⟩
      intro x hx hx0
      obtain ⟨hnv, -, -⟩ := hmem x (List.mem_toFinset.mp hx)
      exact hnv (hv ▸ Finset.mem_union_left _ hx0)
    have hstart2 : start ∈ community ∪ t.toFinset :=
      Finset.mem_union_left _ hstart
    have hq2 : ∀ x ∈ rest ++ t, x ∈ community ∪ t.toFinset := by
      intro x hx
      rcases List.mem_append.mp hx with hx | hx
      · exact Finset.mem_union_left _ (hq x (List.mem_cons_of_mem _ hx))
      · exact Finset.mem_union_right _ (List.mem_toFinset.mpr hx)
    have hreach2 : ∀ x ∈ community ∪ t.toFinset, strongReach g start x := by
      intro x hx
      rcases Finset.mem_union.mp hx with hx | hx
      · exact hreach x hx
      · obtain ⟨-, hnb, hw⟩ := hmem x (List.mem_toFinset.mp hx)
        exact hreach_cur.tail ⟨hnb, hw⟩
    have hclosed2 : ∀ x ∈ visited ∪ t.toFinset, x ∉ rest ++ t →
        ∀ y, strongAdj g x y → y ∈ visited ∪ t.toFinset := by
      intro x hx hxq y hadj
      rcases Finset.mem_union.mp hx with hx | hx
      · by_cases hxc : x = current_node
        · subst hxc
          exact hcomp y hadj.1 hadj.2
        · have hxq0 : x ∉ current_node :: rest := by
            intro hc
            rcases List.mem_cons.mp hc with hc | hc
            · exact hxc hc
            · exact hxq (List.mem_append.mpr (Or.inl hc))
          exact Finset.mem_union_left _ (hclosed x hx hxq0 y hadj)
      · exact absurd (List.mem_append.mpr (Or.inr (List.mem_toFinset.mp hx))) hxq
    have hbound2 : ∀ x ∈ community ∪ t.toFinset, x = start ∨ x ∈ g.edgeNodeSet := by
      intro x hx
      rcases Finset.mem_union.mp hx with hx | hx
      · exact hbound x hx
      · obtain ⟨-, hnb, -⟩ := hmem x (List.mem_toFinset.mp hx)
        exact Or.inr (mem_edgeNodeSet_of_mem_neighbors hnb)
    obtain ⟨c1, c2, c3, c4, c5, c6, c7⟩ :=
      ih hv2 hdis2 hstart2 hq2 hreach2 hclosed2 hbound2
    have hrw : expandLoop g (current_node :: rest) community visited =
        expandLoop g (rest ++ t) (community ∪ t.toFinset) (visited ∪ t.toFinset) := by
      rw [expandLoop, ht]
    rw [hrw]
    exact ⟨c1, c2, Finset.Subset.trans Finset.subset_union_left c3, c4, c5, c6, c7⟩

/-- `_expand_community` from an unvisited start over a strongly closed
visited set returns exactly the strong-reachability component of the start,
disjoint from and added to the visited set, which stays strongly closed. -/
theorem expand_community_spec (g : Graph) (start : NodeId) (V0 : Finset NodeId)
    (hstart : start ∉ V0)
    (hclosed : ∀ x ∈ V0, ∀ y, strongAdj g x y → y ∈ V0) :
    (expand_community g start V0).2 = V0 ∪ (expand_community g start V0).1 ∧
      Disjoint (expand_community g start V0).1 V0 ∧
      (∀ y, y ∈ (expand_community g start V0).1 ↔ strongReach g start y) ∧
      (∀ x ∈ (expand_community g start V0).1, x = start ∨ x ∈ g.edgeNodeSet) ∧
      (∀ x ∈ (expand_community g start V0).2, ∀ y, strongAdj g x y →
        y ∈ (expand_community g start V0).2) := by
  have hmain := expandLoop_spec g start V0 [start] {start} (insert start V0)
    (by rw [Finset.insert_eq, Finset.union_comm])
    (Finset.disjoint_singleton_left.mpr hstart)
    (Finset.mem_singleton_self start)
    (fun x hx => by
      rw [List.mem_singleton.mp hx]
      exact Finset.mem_singleton_self start)
    (fun x hx => by
      rw [Finset.mem_singleton.mp hx]
      exact Relation.ReflTransGen.refl)
    (fun x hx hxq y hadj => by
      rcases Finset.mem_insert.mp hx with rfl | hx0
      · exact absurd (List.mem_singleton.mpr rfl) hxq
      · exact Finset.mem_insert_of_mem (hclosed x hx0 y hadj))
    (fun x hx => Or.inl (Finset.mem_singleton.mp hx))
  obtain ⟨c1, c2, c3, c4, c5, c6, c7⟩ := hmain
  have hre : expand_community g start V0 =
      expandLoop g [start] {start} (insert start V0) := rfl
  rw [hre]
  refine ⟨c1, c2, ?_, c7, c6⟩
  intro y
  constructor
  · exact c5 y
  · intro hy
    have hy2 : y ∈ (expandLoop g [start] {start} (insert start V0)).2 :=
      closed_absorbs_reach c6 (c1 ▸ Finset.mem_union_right _ c4) hy
    rw [c1] at hy2
    rcases Finset.mem_union.mp hy2 with hy0 | hy1
    · exfalso
      exact hstart (closed_absorbs_reach hclosed hy0 (strongReach_symm hy))
    · exact hy1

/-- Invariant description of the `_louvain_approximation` loop: if the
accumulated communities are exactly the strong components of their seeds,
pairwise disjoint, jointly equal to the visited set (itself strongly
closed), and made of nodes/edge endpoints, then the same holds at the end,
and additionally every node of the worklist ends up in some community. -/
theorem louvainLoop_spec (g : Graph) :
    ∀ (todo : List NodeId) (visited : Finset NodeId) (acc : List (Finset NodeId)),
    (∀ x ∈ visited, ∀ y, strongAdj g x y → y ∈ visited) →
    (∀ c ∈ acc, ∃ s, ∀ y, y ∈ c ↔ strongReach g s y) →
    (∀ x, x ∈ visited ↔ ∃ c ∈ acc, x ∈ c) →
    List.Pairwise (fun a b => Disjoint a b) acc →
    (∀ c ∈ acc, ∀ x ∈ c, x ∈ g.nodes ∨ x ∈ g.edgeNodeSet) →
    (∀ x ∈ todo, x ∈ g.nodes) →
    (∀ c ∈ acc, c ∈ (louvainLoop g todo visited acc).1) ∧
      (∀ c ∈ (louvainLoop g todo visited acc).1, ∃ s, ∀ y,
        y ∈ c ↔ strongReach g s y) ∧
      (∀ x, x ∈ (louvainLoop g todo visited acc).2 ↔
        ∃ c ∈ (louvainLoop g todo visited acc).1, x ∈ c) ∧
      List.Pairwise (fun a b => Disjoint a b) (louvainLoop g todo visited acc).1 ∧
      (∀ c ∈ (louvainLoop g todo visited acc).1, ∀ x ∈ c,
        x ∈ g.nodes ∨ x ∈ g.edgeNodeSet) ∧
      (∀ x ∈ todo, ∃ c ∈ (louvainLoop g todo visited acc).1, x ∈ c) := by
  intro todo
  induction todo with
  | nil =>
    intro visited acc h1 h2 h3 h4 h5 _
    exact ⟨fun c hc => hc, h2, h3, h4, h5, by simp⟩
  | cons n rest ih =>
    intro visited acc h1 h2 h3 h4 h5 h6
    by_cases hn : n ∈ visited
    · have hrw : louvainLoop g (n :: rest) visited acc =
          louvainLoop g rest visited acc := by
        rw [louvainLoop, if_pos hn]
      rw [hrw]
      obtain ⟨d1, d2, d3, d4, d5, d6⟩ := ih visited acc h1 h2 h3 h4 h5
        (fun x hx => h6 x (List.mem_cons_of_mem _ hx))
      refine ⟨d1, d2, d3, d4, d5, ?_⟩
      intro x hx
      rcases List.mem_cons.mp hx with rfl | hx
      · obtain ⟨c, hc, hxc⟩ := (h3 x).mp hn
        exact ⟨c, d1 c hc, hxc⟩
      · exact d6 x hx
    · obtain ⟨e1, e2, e3, e4, e5⟩ := expand_community_spec g n visited hn h1
      have hrw : louvainLoop g (n :: rest) visited acc =
          louvainLoop g rest (expand_community g n visited).2
            (acc ++ [(expand_community g n visited).1]) := by
        rw [louvainLoop, if_neg hn]
      rw [hrw]
      have hsub : ∀ c ∈ acc, ∀ x ∈ c, x ∈ visited :=
        fun c hc x hx => (h3 x).mpr ⟨c, hc, hx⟩
      have h1b : ∀ x ∈ (expand_community g n visited).2, ∀ y, strongAdj g x y →
          y ∈ (expand_community g n visited).2 := e5
      have h2b : ∀ c ∈ acc ++ [(expand_community g n visited).1],
          ∃ s, ∀ y, y ∈ c ↔ strongReach g s y := by
        intro c hc
        rcases List.mem_append.mp hc with hc | hc
        · exact h2 c hc
        · rw [List.mem_singleton.mp hc]
          exact ⟨n, e3⟩
      have h3b : ∀ x, x ∈ (expand_community g n visited).2 ↔
          ∃ c ∈ acc ++ [(expand_community g n visited).1], x ∈ c := by
        intro x
        rw [e1, Finset.mem_union]
        constructor
        · rintro (hx | hx)
          · obtain ⟨c, hc, hxc⟩ := (h3 x).mp hx
            exact ⟨c, List.mem_append.mpr (Or.inl hc), hxc⟩
          · exact ⟨_, List.mem_append.mpr (Or.inr (List.mem_singleton.mpr rfl)), hx⟩
        · rintro ⟨c, hc, hxc⟩
          rcases List.mem_append.mp hc with hc | hc
          · exact Or.inl ((h3 x).mpr ⟨c, hc, hxc⟩)
          · rw [List.mem_singleton.mp hc] at hxc
            exact Or.inr hxc
      have h4b : List.Pairwise (fun a b => Disjoint a b)
          (acc ++ [(expand_community g n visited).1]) := by
        rw [List.pairwise_append]
        refine ⟨h4, List.pairwise_singleton .., ?_⟩
        intro a ha b hb
        rw [List.mem_singleton.mp hb]
        rw [Finset.disjoint_right]
        intro x hxb hxa
        exact Finset.disjoint_left.mp e2 hxb (hsub a ha x hxa)
      have h5b : ∀ c ∈ acc ++ [(expand_community g n visited).1], ∀ x ∈ c,
          x ∈ g.nodes ∨ x ∈ g.edgeNodeSet := by
        intro c hc x hx
        rcases List.mem_append.mp hc with hc | hc
        · exact h5 c hc x hx
        · rw [List.mem_singleton.mp hc] at hx
          rcases e4 x hx with rfl | hx2
          · exact Or.inl (h6 x (List.mem_cons_self ..))
          · exact Or.inr hx2
      obtain ⟨d1, d2, d3, d4, d5, d6⟩ := ih (expand_community g n visited).2
        (acc ++ [(expand_community g n visited).1]) h1b h2b h3b h4b h5b
        (fun x hx => h6 x (List.mem_cons_of_mem _ hx))
      refine ⟨?_, d2, d3, d4, d5, ?_⟩
      · intro c hc
        exact d1 c (List.mem_append.mpr (Or.inl hc))
      · intro x hx
        rcases List.mem_cons.mp hx with rfl | hx
        · refine ⟨(expand_community g x visited).1,
            d1 _ (List.mem_append.mpr (Or.inr (List.mem_singleton.mpr rfl))), ?_⟩
          exact (e3 x).mpr Relation.ReflTransGen.refl
        · exact d6 x hx

/-- C10: for every well-formed graph, the communities returned by the
community detector partition the node set — they cover every node, consist
only of nodes, are pairwise disjoint, and no node lies in two distinct
communities. -/
theorem louvain_communities_partition (g : Graph) (hwf : g.Wf) :
    (∀ x ∈ g.nodes, ∃ c ∈ louvain_approximation g, x ∈ c) ∧
    (∀ c ∈ louvain_approximation g, ∀ x ∈ c, x ∈ g.nodes) ∧
    List.Pairwise (fun a b => Disjoint a b) (louvain_approximation g) ∧
    (∀ x : NodeId, ∀ c1 ∈ louvain_approximation g, ∀ c2 ∈ louvain_approximation g,
      x ∈ c1 → x ∈ c2 → c1 = c2) := by
  obtain ⟨-, h2, h3, h4, h5, h6⟩ := louvainLoop_spec g g.nodes ∅ []
    (by simp) (by simp) (by simp) List.Pairwise.nil (by simp) (fun x hx => hx)
  refine ⟨h6, ?_, h4, ?_⟩
  · intro c hc x hx
    rcases h5 c hc x hx with h | h
    · exact h
    · exact edgeNodeSet_subset_nodes hwf x h
  · intro x c1 hc1 c2 hc2 hx1 hx2
    by_contra hne
    have hdisj : Disjoint c1 c2 :=
      List.Pairwise.forall (fun a b h => Disjoint.symm h) h4 hc1 hc2 hne
    exact Finset.disjoint_left.mp hdisj hx1 hx2

theorem louvain_communities_partition_witness :
    ∃ c ∈ louvain_approximation twoNodeGraph, (Sum.inl 1 : NodeId) ∈ c :=
  (louvain_communities_partition twoNodeGraph (by decide)).1 (Sum.inl 1) (by decide)

/-- C7: community expansion traverses exactly the edges of weight above
`0.5`: in a well-formed graph whose edges all have weight above `0.5`, any
two connected nodes share a community (and every node lies in some
community); and two nodes that are not joined by any path of
weight-above-`0.5` edges never share a community. -/
theorem louvain_strong_edges (g : Graph) :
    ((∀ e ∈ g.edges, e.data.weight > 1/2) → ∀ u v : NodeId, u ∈ g.nodes →
      Relation.ReflTransGen (graphAdj g) u v →
      ∃ c ∈ louvain_approximation g, u ∈ c ∧ v ∈ c) ∧
    (∀ u v : NodeId, ¬ strongReach g u v →
      ∀ c ∈ louvain_approximation g, ¬ (u ∈ c ∧ v ∈ c)) ∧
    (∀ u ∈ g.nodes, ∃ c ∈ louvain_approximation g, u ∈ c) := by
  obtain ⟨-, h2, h3, h4, h5, h6⟩ := louvainLoop_spec g g.nodes ∅ []
    (by simp) (by simp) (by simp) List.Pairwise.nil (by simp) (fun x hx => hx)
  refine ⟨?_, ?_, h6⟩
  · intro hsw u v hu hreach
    have hstrong : strongReach g u v := by
      refine Relation.ReflTransGen.mono ?_ hreach
      intro a b hab
      refine ⟨hab, ?_⟩
      have hab2 : b ∈ g.neighbors a := hab
      rw [mem_neighbors] at hab2
      obtain ⟨e, he, hj⟩ := hab2
      have hsome : (g.edges.find? (·.joins a b)).isSome := by
        rw [List.find?_isSome]
        exact ⟨e, he, hj⟩
      obtain ⟨e0, he0⟩ := Option.isSome_iff_exists.mp hsome
      have he0mem : e0 ∈ g.edges := List.mem_of_find?_eq_some he0
      show g.edge_weight a b > 1/2
      unfold Graph.edge_weight
      rw [he0]
      exact hsw e0 he0mem
    obtain ⟨c, hc, huc⟩ := h6 u hu
    obtain ⟨s, hs⟩ := h2 c hc
    refine ⟨c, hc, huc, ?_⟩
    rw [hs]
    exact ((hs u).mp huc).trans hstrong
  · rintro u v hnr c hc ⟨huc, hvc⟩
    obtain ⟨s, hs⟩ := h2 c hc
    exact hnr ((strongReach_symm ((hs u).mp huc)).trans ((hs v).mp hvc))

/-- A two-node graph joined only by a weak (weight `0.3`) edge. -/
def weakGraph : Graph :=
  ⟨[Sum.inl 1, Sum.inl 2], [⟨Sum.inl 1, Sum.inl 2, ⟨3/10, "repost"⟩⟩]⟩

theorem louvain_strong_edges_witness :
    (∃ c ∈ louvain_approximation twoNodeGraph,
      (Sum.inl 1 : NodeId) ∈ c ∧ (Sum.inl 2 : NodeId) ∈ c) ∧
    (∃ c ∈ louvain_approximation weakGraph,
      (Sum.inl 1 : NodeId) ∈ c ∧ (Sum.inl 2 : NodeId) ∉ c) := by
  constructor
  · exact (louvain_strong_edges twoNodeGraph).1 (by with_unfolding_all decide)
      (Sum.inl 1) (Sum.inl 2) (by decide)
      (Relation.ReflTransGen.single
        (show graphAdj twoNodeGraph _ _ by with_unfolding_all decide))
  · have hno : ¬ strongReach weakGraph (Sum.inl 1) (Sum.inl 2) := by
      have hnadj : ∀ b : NodeId, ¬ strongAdj weakGraph (Sum.inl 1) b := by
        rintro b ⟨hmem, hw⟩
        have hN : weakGraph.neighbors (Sum.inl 1) = [Sum.inl 2] := by
          with_unfolding_all rfl
        rw [hN, List.mem_singleton] at hmem
        subst hmem
        have hW : weakGraph.edge_weight (Sum.inl 1) (Sum.inl 2) = 3/10 := by
          with_unfolding_all rfl
        rw [hW] at hw
        norm_num at hw
      intro hr
      rcases Relation.ReflTransGen.cases_head hr with heq | ⟨b, hab, -⟩
      · exact absurd heq (by decide)
      · exact hnadj b hab
    have hthm := louvain_strong_edges weakGraph
    obtain ⟨c, hc, h1c⟩ := hthm.2.2 (Sum.inl 1) (by decide)
    refine ⟨c, hc, h1c, ?_⟩
    intro h2c
    exact hthm.2.1 (Sum.inl 1) (Sum.inl 2) hno c hc ⟨h1c, h2c⟩

end TGF
